import Mathlib

/-!
Verification of the raycaster camera core (`engine/raycaster/Camera.go`).

The Go code works on `float64`; this development embeds it over the exact
rationals `ℚ` (and over `ℝ` where transcendental functions `math.Sqrt`,
`math.Cos`, `math.Sin` are involved).  Go's `int(f)` conversion truncates
toward zero and is embedded as `truncQ` / `truncR`; Go's integer division
on `int` truncates toward zero and is embedded as `Int.tdiv`.  The single
place where an IEEE infinity arises (`deltaDist = Abs(1/rayDir)` with
`rayDir = 0`, making the corresponding `sideDist` infinite as well) is
embedded by the two-point extension `XQ` of `ℚ`; the comparison and
addition rules of `XQ` coincide with the IEEE behaviour of the values the
program can actually produce there.
-/

namespace Raycaster

/-- Go `int(q)` for a rational `q`: truncation toward zero. -/
def truncQ (q : ℚ) : ℤ := if 0 ≤ q then ⌊q⌋ else ⌈q⌉

/-- `Clamp` from Camera.go: restricts `value` to `[min, max]`. -/
def Clamp (value mn mx : ℤ) : ℤ :=
  if value < mn then mn else if value > mx then mx else value

/-- Rationals extended with a single infinite point, modelling the `float64`
values `+Inf` produced by `math.Abs(1 / rayDir)` when `rayDir == 0` and the
side distances derived from them. -/
inductive XQ where
  | fin : ℚ → XQ
  | inf : XQ
deriving DecidableEq

/-- Addition on `XQ`: the infinite point absorbs (matches IEEE `Inf + x`). -/
def XQ.add : XQ → XQ → XQ
  | .fin a, .fin b => .fin (a + b)
  | _, _ => .inf

/-- Strict order on `XQ`.  `inf < x` is false for every `x` (this also
matches the IEEE comparison result for the `NaN`-free runs the DDA
produces: a finite float compares less than `+Inf`, and `+Inf < +Inf`
is false). -/
def XQ.lt : XQ → XQ → Prop
  | .fin a, .fin b => a < b
  | .fin _, .inf => True
  | .inf, _ => False

instance : ∀ a b : XQ, Decidable (a.lt b)
  | .fin a, .fin b => inferInstanceAs (Decidable (a < b))
  | .fin _, .inf => inferInstanceAs (Decidable True)
  | .inf, _ => inferInstanceAs (Decidable False)

/-! ## The wall caster's DDA loop (`castLevel`, Camera.go lines 237-357) -/

/-- The loop-carried state of the DDA in `castLevel`: current grid cell and
the accumulated side distances. -/
structure DDAState where
  mapX : ℤ
  mapY : ℤ
  sideDistX : XQ
  sideDistY : XQ
deriving DecidableEq

/-- The observable outcome of the DDA: `hit` (1 = wall, 2 = boundary),
`side` (0 = stepped in x, 1 = stepped in y) and the final (clamped on a
boundary hit) cell coordinates. -/
structure DDAResult where
  hit : ℕ
  side : ℤ
  mapX : ℤ
  mapY : ℤ
deriving DecidableEq

/-- One outcome of a DDA iteration: either continue with a new state or
stop with a result. -/
inductive DDAOut where
  | next : DDAState → DDAOut
  | done : DDAResult → DDAOut
deriving DecidableEq

/-- The boundary-hit clamp from `castLevel`:
`if mapX < 0 { mapX = 0 } else if mapX > 23 { mapX = 23 }`. -/
def clamp24 (m : ℤ) : ℤ := if m < 0 then 0 else if m > 23 then 23 else m

/-- The hard-coded in-grid test of the DDA loop:
`mapX < 24 && mapY < 24 && mapX > 0 && mapY > 0`. -/
def inBounds24 (mx my : ℤ) : Prop := mx < 24 ∧ my < 24 ∧ mx > 0 ∧ my > 0

instance (mx my : ℤ) : Decidable (inBounds24 mx my) := by
  unfold inBounds24; infer_instance

/-- One iteration of the DDA loop body of `castLevel`: step along the axis
with the smaller accumulated side distance, then test the visited cell
against the hard-coded bound `inBounds24` and the grid value. -/
def ddaStep (grid : ℤ → ℤ → ℤ) (stepX stepY : ℤ) (deltaDistX deltaDistY : XQ)
    (s : DDAState) : DDAOut :=
  if s.sideDistX.lt s.sideDistY then
    let sideDistX := s.sideDistX.add deltaDistX
    let mapX := s.mapX + stepX
    if inBounds24 mapX s.mapY then
      if grid mapX s.mapY > 0 then .done ⟨1, 0, mapX, s.mapY⟩
      else .next ⟨mapX, s.mapY, sideDistX, s.sideDistY⟩
    else
      .done ⟨2, 0, clamp24 mapX, clamp24 s.mapY⟩
  else
    let sideDistY := s.sideDistY.add deltaDistY
    let mapY := s.mapY + stepY
    if inBounds24 s.mapX mapY then
      if grid s.mapX mapY > 0 then .done ⟨1, 1, s.mapX, mapY⟩
      else .next ⟨s.mapX, mapY, s.sideDistX, sideDistY⟩
    else
      .done ⟨2, 1, clamp24 s.mapX, clamp24 mapY⟩

/-- The DDA loop `for hit == 0 { ... }` of `castLevel`, with explicit fuel.
`none` means the fuel ran out (never happens for the fuel chosen below). -/
def ddaLoop (grid : ℤ → ℤ → ℤ) (stepX stepY : ℤ) (deltaDistX deltaDistY : XQ) :
    ℕ → DDAState → Option DDAResult
  | 0, _ => none
  | fuel + 1, s =>
    match ddaStep grid stepX stepY deltaDistX deltaDistY s with
    | .done r => some r
    | .next s' => ddaLoop grid stepX stepY deltaDistX deltaDistY fuel s'

/-- Steps remaining until coordinate `m`, moving by `step` each x/y-step,
leaves the open range `(0, 24)`.  Used as the termination fuel. -/
def axisFuel (step m : ℤ) : ℕ := if step = 1 then (24 - m).toNat else m.toNat

/-- Multiplication of an `XQ` by a rational.  In `castLevel` the multiplier
is strictly positive whenever the `XQ` factor is infinite (the infinite
factor only arises in the `rayDir >= 0` branch, where the multiplier is
`mapX + 1 - rayPosX > 0` because `mapX` truncates `rayPosX` toward zero),
so `q * Inf = Inf` is the faithful rule. -/
def XQ.mulQ (q : ℚ) : XQ → XQ
  | .fin a => .fin (q * a)
  | .inf => .inf

/-- Per-column camera-space x coordinate, `camX[x] = 2*x/w - 1`
(`preCalcCamX`). -/
def cameraX (w x : ℕ) : ℚ := 2 * (x : ℚ) / (w : ℚ) - 1

/-- Inputs of one `castLevel` column: viewport width, column index, camera
position, facing direction and camera plane. -/
structure LevelIn where
  w : ℕ
  x : ℕ
  posX : ℚ
  posY : ℚ
  dirX : ℚ
  dirY : ℚ
  planeX : ℚ
  planeY : ℚ

/-- `rayDirX = dir.X + plane.X*cameraX`. -/
def rayDirX (inp : LevelIn) : ℚ := inp.dirX + inp.planeX * cameraX inp.w inp.x

/-- `rayDirY = dir.Y + plane.Y*cameraX`. -/
def rayDirY (inp : LevelIn) : ℚ := inp.dirY + inp.planeY * cameraX inp.w inp.x

/-- Step direction on one axis: `-1` when the ray component is negative,
else `1`. -/
def stepOf (rd : ℚ) : ℤ := if rd < 0 then -1 else 1

/-- `deltaDist = Abs(1/rayDir)`; infinite when the component is zero. -/
def deltaDistOf (rd : ℚ) : XQ := if rd = 0 then .inf else .fin |1 / rd|

/-- Initial side distance on one axis, from the fractional cell position:
`(rayPos - mapCoord) * deltaDist` when stepping negatively, else
`(mapCoord + 1 - rayPos) * deltaDist`. -/
def sideDistInit (rd rp : ℚ) (m : ℤ) : XQ :=
  if rd < 0 then XQ.mulQ (rp - (m : ℚ)) (deltaDistOf rd)
  else XQ.mulQ ((m : ℚ) + 1 - rp) (deltaDistOf rd)

/-- The `side == 0` texture-id correction of `castLevel` ("supid hacks to
make the houses render correctly"), two sequential if/else-if chains. -/
def texRemapSide0 (t : ℤ) : ℤ :=
  let t1 := if t = 3 then 4 else if t = 4 then 3 else t
  if t1 = 1 then 4 else if t1 = 2 then 3 else t1

/-- Texture selection of `castLevel`: `texNum = cellValue - 1` floored at
zero, then the side-0 remap when the x axis was stepped on the hit. -/
def texNumOf (side cell : ℤ) : ℤ :=
  let t := if cell - 1 < 0 then 0 else cell - 1
  if side = 0 then texRemapSide0 t else t

/-- Observable outputs of one `castLevel` column that the claims are
about. -/
structure CastOut where
  hit : ℕ
  side : ℤ
  mapX : ℤ
  mapY : ℤ
  perpWallDist : ℚ
  texNum : ℤ
deriving DecidableEq

/-- One `castLevel` column (Camera.go lines 237-357): ray setup, the DDA
loop, the perpendicular-distance closed form and texture selection.  The
fuel `axisFuel stepX mapX + axisFuel stepY mapY + 1` is always enough
(`ddaLoop_isSome` below), so the result is never `none`. -/
def castLevel (grid : ℤ → ℤ → ℤ) (inp : LevelIn) : Option CastOut :=
  let rdX := rayDirX inp
  let rdY := rayDirY inp
  let mapX := truncQ inp.posX
  let mapY := truncQ inp.posY
  let stepX := stepOf rdX
  let stepY := stepOf rdY
  let s0 : DDAState :=
    ⟨mapX, mapY, sideDistInit rdX inp.posX mapX, sideDistInit rdY inp.posY mapY⟩
  match ddaLoop grid stepX stepY (deltaDistOf rdX) (deltaDistOf rdY)
      (axisFuel stepX mapX + axisFuel stepY mapY + 1) s0 with
  | none => none
  | some r =>
    let perp := if r.side = 0 then ((r.mapX : ℚ) - inp.posX + (1 - (stepX : ℚ)) / 2) / rdX
                else ((r.mapY : ℚ) - inp.posY + (1 - (stepY : ℚ)) / 2) / rdY
    some ⟨r.hit, r.side, r.mapX, r.mapY, perp, texNumOf r.side (grid r.mapX r.mapY)⟩

/-- The 24x24 grid of the end-to-end scenario: its only wall block is cell
(5,5). -/
def gridC1 : ℤ → ℤ → ℤ := fun i j => if i = 5 ∧ j = 5 then 1 else 0

/-- The end-to-end scenario exactly as the spec states it: camera at
(4.5,4.5), direction (1,0), plane (0,0.66), viewport width 320, central
column x = 160. -/
def levelInSpec : LevelIn := ⟨320, 160, 9/2, 9/2, 1, 0, 0, 33/50⟩

/-- The end-to-end scenario with the camera moved to (4.5,5.5) — the one
input change that makes the ray's row match the wall block's row. -/
def levelInFixed : LevelIn := ⟨320, 160, 9/2, 11/2, 1, 0, 0, 33/50⟩

/-! ## DDA loop: termination measure and result bounds -/

theorem ddaStep_next_measure {grid : ℤ → ℤ → ℤ} {stepX stepY : ℤ}
    {dDX dDY : XQ} {s s' : DDAState}
    (hx : stepX = 1 ∨ stepX = -1) (hy : stepY = 1 ∨ stepY = -1)
    (h : ddaStep grid stepX stepY dDX dDY s = .next s') :
    axisFuel stepX s'.mapX + axisFuel stepY s'.mapY <
      axisFuel stepX s.mapX + axisFuel stepY s.mapY := by
  unfold ddaStep at h
  split at h
  · dsimp only at h
    split at h
    · split at h
      · cases h
      · cases h
        rename_i hbox _
        obtain ⟨h1, h2, h3, h4⟩ := hbox
        dsimp only
        rcases hx with rfl | rfl <;> rcases hy with rfl | rfl <;>
          simp [axisFuel] <;> omega
    · cases h
  · dsimp only at h
    split at h
    · split at h
      · cases h
      · cases h
        rename_i hbox _
        obtain ⟨h1, h2, h3, h4⟩ := hbox
        dsimp only
        rcases hx with rfl | rfl <;> rcases hy with rfl | rfl <;>
          simp [axisFuel] <;> omega
    · cases h

theorem ddaLoop_isSome {grid : ℤ → ℤ → ℤ} {stepX stepY : ℤ} {dDX dDY : XQ}
    (hx : stepX = 1 ∨ stepX = -1) (hy : stepY = 1 ∨ stepY = -1) :
    ∀ (fuel : ℕ) (s : DDAState),
      axisFuel stepX s.mapX + axisFuel stepY s.mapY < fuel →
      (ddaLoop grid stepX stepY dDX dDY fuel s).isSome := by
  intro fuel
  induction fuel with
  | zero => intro s h; omega
  | succ n ih =>
    intro s h
    unfold ddaLoop
    cases hstep : ddaStep grid stepX stepY dDX dDY s with
    | done r => simp
    | next s' =>
      simp only [Option.isSome]
      have := ddaStep_next_measure hx hy hstep
      exact ih s' (by omega)

theorem clamp24_mem (m : ℤ) : 0 ≤ clamp24 m ∧ clamp24 m ≤ 23 := by
  unfold clamp24; split_ifs <;> omega

/-- Every result of the DDA loop has both coordinates in `[0, 23]`, the hit
flag is 1 or 2, and a wall hit (`hit = 1`) lies strictly inside the bound
check with a positive grid value there. -/
theorem ddaLoop_result_bounds {grid : ℤ → ℤ → ℤ} {stepX stepY : ℤ}
    {dDX dDY : XQ} :
    ∀ (fuel : ℕ) (s : DDAState) (r : DDAResult),
      ddaLoop grid stepX stepY dDX dDY fuel s = some r →
      (0 ≤ r.mapX ∧ r.mapX ≤ 23 ∧ 0 ≤ r.mapY ∧ r.mapY ≤ 23) ∧
      (r.hit = 1 ∨ r.hit = 2) ∧
      (r.hit = 1 → inBounds24 r.mapX r.mapY ∧ 0 < grid r.mapX r.mapY) := by
  intro fuel
  induction fuel with
  | zero => intro s r h; cases h
  | succ n ih =>
    intro s r h
    unfold ddaLoop at h
    revert h
    cases hstep : ddaStep grid stepX stepY dDX dDY s with
    | next s' => exact fun h => ih s' r h
    | done r' =>
      intro h
      cases h
      unfold ddaStep at hstep
      split at hstep
      · dsimp only at hstep
        split at hstep
        · split at hstep
          · cases hstep
            rename_i hbox hpos
            obtain ⟨h1, h2, h3, h4⟩ := hbox
            dsimp only
            refine ⟨⟨by omega, by omega, by omega, by omega⟩, Or.inl rfl, ?_⟩
            exact fun _ => ⟨⟨h1, h2, h3, h4⟩, hpos⟩
          · cases hstep
        · cases hstep
          dsimp only
          refine ⟨⟨(clamp24_mem _).1, (clamp24_mem _).2,
            (clamp24_mem _).1, (clamp24_mem _).2⟩, Or.inr rfl, by simp⟩
      · dsimp only at hstep
        split at hstep
        · split at hstep
          · cases hstep
            rename_i hbox hpos
            obtain ⟨h1, h2, h3, h4⟩ := hbox
            dsimp only
            refine ⟨⟨by omega, by omega, by omega, by omega⟩, Or.inl rfl, ?_⟩
            exact fun _ => ⟨⟨h1, h2, h3, h4⟩, hpos⟩
          · cases hstep
        · cases hstep
          dsimp only
          refine ⟨⟨(clamp24_mem _).1, (clamp24_mem _).2,
            (clamp24_mem _).1, (clamp24_mem _).2⟩, Or.inr rfl, by simp⟩

theorem stepOf_cases (rd : ℚ) : stepOf rd = 1 ∨ stepOf rd = -1 := by
  unfold stepOf; split_ifs <;> simp

/-- `castLevel` unpacked: whenever the DDA loop (run on the initial state
and fuel that `castLevel` uses) yields `r`, `castLevel` yields the column
output built from `r`. -/
theorem castLevel_eq_of_dda (grid : ℤ → ℤ → ℤ) (inp : LevelIn) (r : DDAResult)
    (hr : ddaLoop grid (stepOf (rayDirX inp)) (stepOf (rayDirY inp))
        (deltaDistOf (rayDirX inp)) (deltaDistOf (rayDirY inp))
        (axisFuel (stepOf (rayDirX inp)) (truncQ inp.posX) +
          axisFuel (stepOf (rayDirY inp)) (truncQ inp.posY) + 1)
        ⟨truncQ inp.posX, truncQ inp.posY,
          sideDistInit (rayDirX inp) inp.posX (truncQ inp.posX),
          sideDistInit (rayDirY inp) inp.posY (truncQ inp.posY)⟩ = some r) :
    castLevel grid inp = some ⟨r.hit, r.side, r.mapX, r.mapY,
      (if r.side = 0 then
          ((r.mapX : ℚ) - inp.posX + (1 - (stepOf (rayDirX inp) : ℚ)) / 2) / rayDirX inp
        else
          ((r.mapY : ℚ) - inp.posY + (1 - (stepOf (rayDirY inp) : ℚ)) / 2) / rayDirY inp),
      texNumOf r.side (grid r.mapX r.mapY)⟩ := by
  unfold castLevel
  dsimp only
  rw [hr]

/-- C2: for every camera position, ray direction and grid, the DDA of
`castLevel` terminates (the chosen fuel is never exhausted, so the result
is `some`) and the exit cell satisfies `0 ≤ mapX, mapY ≤ 23`, keeping the
subsequent `grid[mapX][mapY]` texture lookup inside a 24x24 grid. -/
theorem castLevel_terminates_in_bounds (grid : ℤ → ℤ → ℤ) (inp : LevelIn) :
    ∃ r : CastOut, castLevel grid inp = some r ∧
      0 ≤ r.mapX ∧ r.mapX ≤ 23 ∧ 0 ≤ r.mapY ∧ r.mapY ≤ 23 := by
  have hx := stepOf_cases (rayDirX inp)
  have hy := stepOf_cases (rayDirY inp)
  have hsome := @ddaLoop_isSome grid (stepOf (rayDirX inp)) (stepOf (rayDirY inp))
      (deltaDistOf (rayDirX inp)) (deltaDistOf (rayDirY inp)) hx hy
      (axisFuel (stepOf (rayDirX inp)) (truncQ inp.posX) +
        axisFuel (stepOf (rayDirY inp)) (truncQ inp.posY) + 1)
      ⟨truncQ inp.posX, truncQ inp.posY,
        sideDistInit (rayDirX inp) inp.posX (truncQ inp.posX),
        sideDistInit (rayDirY inp) inp.posY (truncQ inp.posY)⟩
      (by dsimp only; omega)
  obtain ⟨r, hr⟩ := Option.isSome_iff_exists.mp hsome
  have hb := ddaLoop_result_bounds _ _ _ hr
  exact ⟨_, castLevel_eq_of_dda grid inp r hr,
    hb.1.1, hb.1.2.1, hb.1.2.2.1, hb.1.2.2.2⟩

/-- C10: a wall hit (`hit = 1`) is only ever reported for a cell with both
coordinates in `[1, 23]`; and whenever the cell the DDA steps to fails the
hard-coded bound test — in particular any cell with `mapX = 0` or
`mapY = 0` — the iteration ends as a boundary hit (`hit = 2`) regardless
of the grid value of that cell. -/
theorem wallHit_interior_only :
    (∀ (grid : ℤ → ℤ → ℤ) (stepX stepY : ℤ) (dDX dDY : XQ) (fuel : ℕ)
        (s : DDAState) (r : DDAResult),
      ddaLoop grid stepX stepY dDX dDY fuel s = some r → r.hit = 1 →
        1 ≤ r.mapX ∧ r.mapX ≤ 23 ∧ 1 ≤ r.mapY ∧ r.mapY ≤ 23) ∧
    (∀ (grid : ℤ → ℤ → ℤ) (stepX stepY : ℤ) (dDX dDY : XQ) (s : DDAState),
      s.sideDistX.lt s.sideDistY → ¬ inBounds24 (s.mapX + stepX) s.mapY →
        ddaStep grid stepX stepY dDX dDY s =
          .done ⟨2, 0, clamp24 (s.mapX + stepX), clamp24 s.mapY⟩) ∧
    (∀ (grid : ℤ → ℤ → ℤ) (stepX stepY : ℤ) (dDX dDY : XQ) (s : DDAState),
      ¬ s.sideDistX.lt s.sideDistY → ¬ inBounds24 s.mapX (s.mapY + stepY) →
        ddaStep grid stepX stepY dDX dDY s =
          .done ⟨2, 1, clamp24 s.mapX, clamp24 (s.mapY + stepY)⟩) := by
  refine ⟨?_, ?_, ?_⟩
  · intro grid stepX stepY dDX dDY fuel s r hr hhit
    have hb := ddaLoop_result_bounds fuel s r hr
    obtain ⟨⟨hbox1, hbox2, hbox3, hbox4⟩, _⟩ := hb.2.2 hhit
    exact ⟨by omega, by omega, by omega, by omega⟩
  · intro grid stepX stepY dDX dDY s hlt hbox
    unfold ddaStep
    rw [if_pos hlt]
    dsimp only
    rw [if_neg hbox]
  · intro grid stepX stepY dDX dDY s hlt hbox
    unfold ddaStep
    rw [if_neg hlt]
    dsimp only
    rw [if_neg hbox]

/-- A grid whose only wall block sits on the `mapX = 0` edge, at (0,5). -/
def gridEdge : ℤ → ℤ → ℤ := fun i j => if i = 0 ∧ j = 5 then 7 else 0

/-- Witness for `wallHit_interior_only`: stepping onto the positive-valued
cell (0,5) of `gridEdge` ends the DDA as a boundary hit, not a wall hit. -/
theorem wallHit_interior_only_witness :
    gridEdge 0 5 > 0 ∧
      ddaStep gridEdge (-1) 1 (.fin 1) (.fin 1) ⟨1, 5, .fin 1, .inf⟩ =
        .done ⟨2, 0, 0, 5⟩ := by
  constructor
  · decide
  · have h := wallHit_interior_only.2.1 gridEdge (-1) 1 (.fin 1) (.fin 1)
      ⟨1, 5, .fin 1, .inf⟩ trivial (by decide)
    simpa [clamp24] using h

/-- C1 counterexample: on the scenario exactly as stated (camera at
(4.5,4.5), direction (1,0), plane (0,0.66), width 320, column 160) the
eastbound ray travels along the row of cells with `mapY = 4`, never
visits cell (5,5), and exits as a boundary hit at cell (23,4) with
perpendicular distance 37/2 — not a wall hit at (5,5) with distance
1/2. -/
theorem castLevel_spec_scenario_fails :
    castLevel gridC1 levelInSpec = some ⟨2, 0, 23, 4, 37/2, 0⟩ ∧
      (2 : ℕ) ≠ 1 ∧ ((23 : ℤ), (4 : ℤ)) ≠ ((5 : ℤ), (5 : ℤ)) ∧
      (37 : ℚ)/2 ≠ 1/2 := by
  refine ⟨?_, by decide, by decide, by norm_num⟩
  norm_num [castLevel, ddaLoop, ddaStep, XQ.lt, XQ.add, XQ.mulQ, gridC1,
    levelInSpec, rayDirX, rayDirY, cameraX, truncQ, stepOf, deltaDistOf,
    sideDistInit, axisFuel, clamp24, inBounds24, texNumOf, texRemapSide0]

/-- C1 amended: with the camera row moved to match the wall block's row —
camera at (4.5,5.5), all other inputs as stated — the central column's
wall hit cell is (5,5), the stepped side is the x axis (`side = 0`) and
the perpendicular wall distance is exactly 1/2. -/
theorem castLevel_fixed_scenario_hits :
    castLevel gridC1 levelInFixed = some ⟨1, 0, 5, 5, 1/2, 0⟩ := by
  norm_num [castLevel, ddaLoop, ddaStep, XQ.lt, XQ.add, XQ.mulQ, gridC1,
    levelInFixed, rayDirX, rayDirY, cameraX, truncQ, stepOf, deltaDistOf,
    sideDistInit, axisFuel, clamp24, inBounds24, texNumOf, texRemapSide0]

/-- C6 counterexample: the side-0 correction does not swap the pair
2<->3 — texture id 3 is remapped to 4 (by the chain 3 -> 4), not to 2;
equally the pair 1<->4 is not swapped, since id 4 goes to 3, not to 1. -/
theorem texRemap_not_pair_swaps :
    texRemapSide0 3 = 4 ∧ texNumOf 0 4 = 4 ∧ (4 : ℤ) ≠ 2 ∧
      texRemapSide0 4 = 3 ∧ (3 : ℤ) ≠ 1 := by
  refine ⟨by decide, ?_, by decide, by decide, by decide⟩
  decide

/-- C6 amended: when the hit was on the x-stepped side (`side = 0`) the
texture id is remapped as 1 -> 4, 2 -> 3, 3 -> 4 and 4 -> 3 (other ids
unchanged); when the hit was on the y-stepped side (`side = 1`) the id
`cellValue - 1` floored at zero is used unmodified. -/
theorem texRemap_exact_map : ∀ t cell : ℤ,
    texRemapSide0 t =
      (if t = 1 then 4 else if t = 2 then 3 else
       if t = 3 then 4 else if t = 4 then 3 else t) ∧
    texNumOf 0 cell = texRemapSide0 (if cell - 1 < 0 then 0 else cell - 1) ∧
    texNumOf 1 cell = (if cell - 1 < 0 then 0 else cell - 1) := by
  intro t cell
  refine ⟨?_, by rfl, by rfl⟩
  unfold texRemapSide0
  dsimp only
  split_ifs <;> omega

/-! ## Movement (`Move`, `Strafe`, Camera.go lines 675-701) -/

/-- `getNormalSpeed`: `speed * movementTPS / targetTPS`, with the constant
`movementTPS = 60.0`. -/
def getNormalSpeed (targetTPS speed : ℚ) : ℚ := speed * 60 / targetTPS

/-- The camera position mutated by `Move` and `Strafe`. -/
structure MoveState where
  posX : ℚ
  posY : ℚ
deriving DecidableEq

/-- `Move`: per-axis collision check against the base grid with the fixed
lookahead multiplier 12.  The y-axis check indexes the grid with the x
coordinate *after* the x-axis update, exactly as the two sequential `if`
statements of the Go code do. -/
def moveCam (grid : ℤ → ℤ → ℤ) (targetTPS dirX dirY : ℚ) (s : MoveState)
    (speed : ℚ) : MoveState :=
  let m := getNormalSpeed targetTPS speed
  let x1 := if grid (truncQ (s.posX + dirX * m * 12)) (truncQ s.posY) ≤ 0
    then s.posX + dirX * m else s.posX
  let y1 := if grid (truncQ x1) (truncQ (s.posY + dirY * m * 12)) ≤ 0
    then s.posY + dirY * m else s.posY
  ⟨x1, y1⟩

/-- `Strafe`: identical to `Move` with the plane vector in place of the
direction vector. -/
def strafeCam (grid : ℤ → ℤ → ℤ) (targetTPS planeX planeY : ℚ) (s : MoveState)
    (speed : ℚ) : MoveState :=
  let m := getNormalSpeed targetTPS speed
  let x1 := if grid (truncQ (s.posX + planeX * m * 12)) (truncQ s.posY) ≤ 0
    then s.posX + planeX * m else s.posX
  let y1 := if grid (truncQ x1) (truncQ (s.posY + planeY * m * 12)) ≤ 0
    then s.posY + planeY * m else s.posY
  ⟨x1, y1⟩

/-- A base grid whose only wall cell is (1,1). -/
def gridMove : ℤ → ℤ → ℤ := fun i j => if i = 1 ∧ j = 1 then 1 else 0

/-- C9 counterexample: from (0.95, 0.5) with direction (1,1) and speed
0.1, the x axis moves (to 1.05), after which the y-axis lookahead cell
becomes the wall (1,1), so `Move` leaves pos.Y at 0.5 — even though the
cell at the *pre-move* x column, (0, 1), is empty and the claim's
independent per-axis iff therefore predicts pos.Y advances by the nonzero
increment.  The y check is made against the already-updated x. -/
theorem move_prestate_check_fails :
    moveCam gridMove 60 1 1 ⟨19/20, 1/2⟩ (1/10) = ⟨21/20, 1/2⟩ ∧
      gridMove (truncQ (19/20 : ℚ))
        (truncQ ((1/2 : ℚ) + 1 * getNormalSpeed 60 (1/10) * 12)) ≤ 0 ∧
      (1/2 : ℚ) ≠ 1/2 + 1 * getNormalSpeed 60 (1/10) := by
  refine ⟨?_, ?_, ?_⟩
  · norm_num [moveCam, gridMove, getNormalSpeed, truncQ]
  · norm_num [gridMove, getNormalSpeed, truncQ]
  · norm_num [getNormalSpeed]

/-- C9 amended: `Move` (and analogously `Strafe`) applies the checks
sequentially — pos.X advances iff the base-grid cell at
(pos.X + dirX*m*12, pos.Y) is empty, and pos.Y advances iff the cell at
(pos.X', pos.Y + dirY*m*12) is empty, where pos.X' is the x coordinate
*after* the x-axis update.  A blocked axis stays unchanged while an open
orthogonal axis still updates. -/
theorem move_axis_checks (grid : ℤ → ℤ → ℤ) (targetTPS dirX dirY speed : ℚ)
    (s : MoveState) :
    (moveCam grid targetTPS dirX dirY s speed).posX =
      (if grid (truncQ (s.posX + dirX * getNormalSpeed targetTPS speed * 12))
          (truncQ s.posY) ≤ 0
       then s.posX + dirX * getNormalSpeed targetTPS speed else s.posX) ∧
    (moveCam grid targetTPS dirX dirY s speed).posY =
      (if grid (truncQ (moveCam grid targetTPS dirX dirY s speed).posX)
          (truncQ (s.posY + dirY * getNormalSpeed targetTPS speed * 12)) ≤ 0
       then s.posY + dirY * getNormalSpeed targetTPS speed else s.posY) ∧
    (strafeCam grid targetTPS dirX dirY s speed).posX =
      (if grid (truncQ (s.posX + dirX * getNormalSpeed targetTPS speed * 12))
          (truncQ s.posY) ≤ 0
       then s.posX + dirX * getNormalSpeed targetTPS speed else s.posX) ∧
    (strafeCam grid targetTPS dirX dirY s speed).posY =
      (if grid (truncQ (strafeCam grid targetTPS dirX dirY s speed).posX)
          (truncQ (s.posY + dirY * getNormalSpeed targetTPS speed * 12)) ≤ 0
       then s.posY + dirY * getNormalSpeed targetTPS speed else s.posY) := by
  refine ⟨rfl, rfl, rfl, rfl⟩

/-! ## The lighting model (Camera.go lines 398-410, 481-486, 617-622) -/

/-- `lightFalloff` — "decrease value to make torch dimmer". -/
def lightFalloff : ℝ := -100

/-- `sunLight` — "global illumination". -/
def sunLight : ℝ := 300

/-- Go `int(x)` for a real `x`: truncation toward zero. -/
noncomputable def truncR (x : ℝ) : ℤ := if 0 ≤ x then ⌊x⌋ else ⌈x⌉

/-- The per-channel shading used identically by the wall, floor and sprite
casters: `Clamp(int(channel + Sqrt(distance)*lightFalloff + sunLight), 0, 255)`. -/
noncomputable def shade (base : ℤ) (d : ℝ) : ℤ :=
  Clamp (truncR ((base : ℝ) + Real.sqrt d * lightFalloff + sunLight)) 0 255

theorem truncR_mono {x y : ℝ} (h : x ≤ y) : truncR x ≤ truncR y := by
  unfold truncR
  split_ifs with hx hy hy2
  · exact Int.floor_mono h
  · linarith
  · have h1 : ⌈x⌉ ≤ (0 : ℤ) := Int.ceil_le.mpr (by push_cast; linarith [not_le.mp hx])
    have h2 : (0 : ℤ) ≤ ⌊y⌋ := Int.floor_nonneg.mpr hy2
    omega
  · exact Int.ceil_mono h

theorem Clamp_mono {a b lo hi : ℤ} (hlh : lo ≤ hi) (h : a ≤ b) :
    Clamp a lo hi ≤ Clamp b lo hi := by
  unfold Clamp; split_ifs <;> omega

theorem Clamp_mem {v lo hi : ℤ} (h : lo ≤ hi) :
    lo ≤ Clamp v lo hi ∧ Clamp v lo hi ≤ hi := by
  unfold Clamp; split_ifs <;> omega

/-- C7: for every base channel the shade is always inside [0, 255], and it
is monotonically non-increasing in the distance (in particular beyond the
point where the clamp stops saturating at 255). -/
theorem shade_mem_and_antitone (base : ℤ) (d d1 d2 : ℝ)
    (_hd1 : 0 ≤ d1) (h12 : d1 ≤ d2) :
    (0 ≤ shade base d ∧ shade base d ≤ 255) ∧ shade base d2 ≤ shade base d1 := by
  refine ⟨Clamp_mem (by norm_num), ?_⟩
  unfold shade
  apply Clamp_mono (by norm_num)
  apply truncR_mono
  have hs : Real.sqrt d1 ≤ Real.sqrt d2 := Real.sqrt_le_sqrt h12
  have : Real.sqrt d2 * lightFalloff ≤ Real.sqrt d1 * lightFalloff := by
    unfold lightFalloff; nlinarith
  linarith

/-- Witness for `shade_mem_and_antitone` at base 255, distances 0 and 16:
the shade drops from the saturated 255 to 155. -/
theorem shade_mem_and_antitone_witness :
    ((0 ≤ shade 255 16 ∧ shade 255 16 ≤ 255) ∧ shade 255 16 ≤ shade 255 0) ∧
      shade 255 0 = 255 ∧ shade 255 16 = 155 := by
  refine ⟨shade_mem_and_antitone 255 16 0 16 (by norm_num) (by norm_num), ?_, ?_⟩
  · unfold shade
    rw [Real.sqrt_zero]
    norm_num [truncR, Clamp, lightFalloff, sunLight]
  · unfold shade
    rw [show (16 : ℝ) = 4 ^ 2 by norm_num, Real.sqrt_sq (by norm_num : (0:ℝ) ≤ 4)]
    norm_num [truncR, Clamp, lightFalloff, sunLight]

/-! ## Rotation (`Rotate`, Camera.go lines 704-714) -/

/-- A 2D vector with real components (`Vector2`). -/
structure Vec2 where
  x : ℝ
  y : ℝ

/-- The rotation applied by `Rotate` to a vector:
`(X*cos r - Y*sin r, X*sin r + Y*cos r)`. -/
noncomputable def rotateVec (r : ℝ) (v : Vec2) : Vec2 :=
  ⟨v.x * Real.cos r - v.y * Real.sin r, v.x * Real.sin r + v.y * Real.cos r⟩

/-- `Rotate`: the speed-normalized angle is applied to both the direction
and the plane vector. -/
noncomputable def rotateCam (targetTPS rSpeed : ℝ) (dir plane : Vec2) :
    Vec2 × Vec2 :=
  let r := rSpeed * 60 / targetTPS
  (rotateVec r dir, rotateVec r plane)

/-- Squared Euclidean length. -/
noncomputable def normSq (v : Vec2) : ℝ := v.x ^ 2 + v.y ^ 2

/-- 2D cross product; nonzero exactly when the two vectors are linearly
independent. -/
noncomputable def cross (a b : Vec2) : ℝ := a.x * b.y - a.y * b.x

theorem normSq_rotateVec (r : ℝ) (v : Vec2) :
    normSq (rotateVec r v) = normSq v := by
  have h := Real.sin_sq_add_cos_sq r
  unfold normSq rotateVec
  dsimp only
  calc (v.x * Real.cos r - v.y * Real.sin r) ^ 2 +
        (v.x * Real.sin r + v.y * Real.cos r) ^ 2
      = (v.x ^ 2 + v.y ^ 2) * (Real.sin r ^ 2 + Real.cos r ^ 2) := by ring
    _ = v.x ^ 2 + v.y ^ 2 := by rw [h, mul_one]

theorem cross_rotateVec (r : ℝ) (a b : Vec2) :
    cross (rotateVec r a) (rotateVec r b) = cross a b := by
  have h := Real.sin_sq_add_cos_sq r
  unfold cross rotateVec
  dsimp only
  calc (a.x * Real.cos r - a.y * Real.sin r) * (b.x * Real.sin r + b.y * Real.cos r) -
        (a.x * Real.sin r + a.y * Real.cos r) * (b.x * Real.cos r - b.y * Real.sin r)
      = (a.x * b.y - a.y * b.x) * (Real.sin r ^ 2 + Real.cos r ^ 2) := by ring
    _ = a.x * b.y - a.y * b.x := by rw [h, mul_one]

/-- C8: `Rotate` applies the same rotation to direction and plane,
preserving both lengths — hence the field-of-view ratio
`|plane| / |direction|` — and preserving linear independence of the two
vectors (nonzero 2D cross product). -/
theorem rotate_preserves_fov_and_independence (targetTPS rSpeed : ℝ)
    (dir plane : Vec2) (hind : cross dir plane ≠ 0) :
    normSq (rotateCam targetTPS rSpeed dir plane).1 = normSq dir ∧
    normSq (rotateCam targetTPS rSpeed dir plane).2 = normSq plane ∧
    Real.sqrt (normSq (rotateCam targetTPS rSpeed dir plane).2) /
        Real.sqrt (normSq (rotateCam targetTPS rSpeed dir plane).1) =
      Real.sqrt (normSq plane) / Real.sqrt (normSq dir) ∧
    cross (rotateCam targetTPS rSpeed dir plane).1
        (rotateCam targetTPS rSpeed dir plane).2 ≠ 0 := by
  unfold rotateCam
  dsimp only
  refine ⟨normSq_rotateVec _ _, normSq_rotateVec _ _, ?_, ?_⟩
  · rw [normSq_rotateVec, normSq_rotateVec]
  · rw [cross_rotateVec]
    exact hind

/-- Witness for `rotate_preserves_fov_and_independence` with angle 0 and
the initial camera configuration dir (1,0), plane (0,0.66). -/
theorem rotate_preserves_fov_witness :
    cross (rotateCam 60 0 ⟨1, 0⟩ ⟨0, 33/50⟩).1
        (rotateCam 60 0 ⟨1, 0⟩ ⟨0, 33/50⟩).2 ≠ 0 ∧
      normSq (rotateCam 60 0 ⟨1, 0⟩ ⟨0, 33/50⟩).1 = normSq ⟨1, 0⟩ := by
  have h := rotate_preserves_fov_and_independence 60 0 ⟨1, 0⟩ ⟨0, 33/50⟩
    (by norm_num [cross])
  exact ⟨h.2.2.2, h.1⟩

/-! ## The sprite caster (`castSprite`, Camera.go lines 502-629) -/

/-- Inputs of one `castSprite` call: viewport size, global texture width,
camera state, the sprite's world position, the capacity of the sprite's
precomputed slice array (its texture width), and the depth buffer. -/
structure SpriteIn where
  w : ℤ
  h : ℤ
  texWidth : ℤ
  posX : ℚ
  posY : ℚ
  dirX : ℚ
  dirY : ℚ
  planeX : ℚ
  planeY : ℚ
  sprX : ℚ
  sprY : ℚ
  sprW : ℤ
  zBuf : ℤ → ℚ

/-- `invDet = 1/(planeX*dirY - dirX*planeY)`. -/
def invDet (s : SpriteIn) : ℚ := 1 / (s.planeX * s.dirY - s.dirX * s.planeY)

/-- `transformX = invDet * (dirY*spriteX - dirX*spriteY)` where
`spriteX/Y` are the camera-relative sprite coordinates. -/
def transformX (s : SpriteIn) : ℚ :=
  invDet s * (s.dirY * (s.sprX - s.posX) - s.dirX * (s.sprY - s.posY))

/-- `transformY = invDet * (-planeY*spriteX + planeX*spriteY)` — the depth
into the screen. -/
def transformY (s : SpriteIn) : ℚ :=
  invDet s * (-s.planeY * (s.sprX - s.posX) + s.planeX * (s.sprY - s.posY))

/-- `spriteScreenX = int(w/2 * (1 + transformX/transformY))`. -/
def spriteScreenX (s : SpriteIn) : ℤ :=
  truncQ ((s.w : ℚ) / 2 * (1 + transformX s / transformY s))

/-- `vMoveScreen = int(vMove / transformY)` with `vMove = 0.0`. -/
def vMoveScreen (s : SpriteIn) : ℤ := truncQ (0 / transformY s)

/-- `spriteHeight = int(Abs(h/transformY) / vDiv)` with `vDiv = 1`. -/
def spriteHeight (s : SpriteIn) : ℤ := truncQ (|(s.h : ℚ) / transformY s| / 1)

/-- `drawStartY` before viewport clipping. -/
def drawStartY0 (s : SpriteIn) : ℤ :=
  Int.tdiv (-spriteHeight s) 2 + Int.tdiv s.h 2 + vMoveScreen s

/-- `drawStartY`, clipped at 0. -/
def drawStartY (s : SpriteIn) : ℤ :=
  if drawStartY0 s < 0 then 0 else drawStartY0 s

/-- `drawEndY` before viewport clipping. -/
def drawEndY0 (s : SpriteIn) : ℤ :=
  Int.tdiv (spriteHeight s) 2 + Int.tdiv s.h 2 + vMoveScreen s

/-- `drawEndY`, clipped at `h - 1`. -/
def drawEndY (s : SpriteIn) : ℤ :=
  if drawEndY0 s ≥ s.h then s.h - 1 else drawEndY0 s

/-- `spriteWidth = int(Abs(h/transformY) / uDiv)` with `uDiv = 1`. -/
def spriteWidth (s : SpriteIn) : ℤ := truncQ (|(s.h : ℚ) / transformY s| / 1)

/-- `drawStartX` before viewport clipping,
`-spriteWidth/2 + spriteScreenX` (also reused inside the `texX`
formula). -/
def drawStartX0 (s : SpriteIn) : ℤ :=
  Int.tdiv (-spriteWidth s) 2 + spriteScreenX s

/-- `drawStartX`, clipped at 0. -/
def drawStartX (s : SpriteIn) : ℤ :=
  if drawStartX0 s < 0 then 0 else drawStartX0 s

/-- `drawEndX` before viewport clipping. -/
def drawEndX0 (s : SpriteIn) : ℤ :=
  Int.tdiv (spriteWidth s) 2 + spriteScreenX s

/-- `drawEndX`, clipped at `w - 1`. -/
def drawEndX (s : SpriteIn) : ℤ :=
  if drawEndX0 s ≥ s.w then s.w - 1 else drawEndX0 s

/-- The per-column acceptance guard of the sprite loop:
`transformY > 0 && stripe > 0 && stripe < w && transformY < zBuffer[stripe]`.
This is the test that flips `renderSprite` (and so allocates the sprite's
Level) the first time it passes. -/
def acceptCol (s : SpriteIn) (stripe : ℤ) : Prop :=
  transformY s > 0 ∧ stripe > 0 ∧ stripe < s.w ∧ transformY s < s.zBuf stripe

instance (s : SpriteIn) (stripe : ℤ) : Decidable (acceptCol s stripe) := by
  unfold acceptCol; infer_instance

/-- `texX = int(256*(stripe-(-spriteWidth/2+spriteScreenX))*texWidth/spriteWidth) / 256`. -/
def texX (s : SpriteIn) (stripe : ℤ) : ℤ :=
  Int.tdiv (Int.tdiv (256 * (stripe - drawStartX0 s) * s.texWidth) (spriteWidth s)) 256

/-- `d = (drawStartY-vMoveScreen)*256 - h*128 + spriteHeight*128` and
`texStartY = ((d*texWidth)/spriteHeight)/256`. -/
def texStartY (s : SpriteIn) : ℤ :=
  Int.tdiv (Int.tdiv (((drawStartY s - vMoveScreen s) * 256 - s.h * 128 +
    spriteHeight s * 128) * s.texWidth) (spriteHeight s)) 256

/-- `d = (drawEndY-1-vMoveScreen)*256 - h*128 + spriteHeight*128` and
`texEndY = ((d*texWidth)/spriteHeight)/256`. -/
def texEndY (s : SpriteIn) : ℤ :=
  Int.tdiv (Int.tdiv (((drawEndY s - 1 - vMoveScreen s) * 256 - s.h * 128 +
    spriteHeight s * 128) * s.texWidth) (spriteHeight s)) 256

/-- `castSprite` writes a slice for column `stripe` exactly when: the
stripe is in the draw box, the acceptance guard passes, and neither
`continue` fires (texX in the slice-array capacity, texture row range not
degenerate). -/
def spriteEmits (s : SpriteIn) (stripe : ℤ) : Prop :=
  drawStartX s ≤ stripe ∧ stripe < drawEndX s ∧ acceptCol s stripe ∧
    ¬ (texX s stripe < 0 ∨ texX s stripe ≥ s.sprW) ∧
    ¬ (texStartY s < 0 ∨ texStartY s ≥ texEndY s ∨ texEndY s ≥ s.texWidth)

instance (s : SpriteIn) (stripe : ℤ) : Decidable (spriteEmits s stripe) := by
  unfold spriteEmits; infer_instance

/-- The `renderSprite` flag computed by the stripe loop of `castSprite`:
it starts false and is set (once) when a stripe passes the acceptance
guard. -/
def renderLoop (s : SpriteIn) : ℕ → ℤ → Bool → Bool
  | 0, _, acc => acc
  | k + 1, stripe, acc =>
    renderLoop s k (stripe + 1) (acc || decide (acceptCol s stripe))

/-- `renderSprite` after the whole stripe loop
`for stripe := drawStartX; stripe < drawEndX; stripe++`. -/
def renderSprite (s : SpriteIn) : Bool :=
  renderLoop s (drawEndX s - drawStartX s).toNat (drawStartX s) false

/-- The sprite's Level slot after `castSprite`: `makeSpriteLevel` stores a
fresh Level when some column accepted the sprite, `clearSpriteLevel`
stores nil otherwise.  `some ()` stands for the freshly allocated Level,
`none` for nil. -/
def spriteSlot (s : SpriteIn) : Option Unit :=
  if renderSprite s then some () else none

/-- C3: a slice is emitted for a sprite at a column only when
`transformY > 0` and `transformY < zBuffer[column]`; in particular a
sprite behind the camera emits no slice at any column, and a sprite at or
beyond the wall depth of a column emits no slice at that column. -/
theorem spriteEmits_occlusion (s : SpriteIn) (stripe : ℤ) :
    (spriteEmits s stripe → 0 < transformY s ∧ transformY s < s.zBuf stripe) ∧
    (transformY s ≤ 0 → ¬ spriteEmits s stripe) ∧
    (s.zBuf stripe ≤ transformY s → ¬ spriteEmits s stripe) := by
  refine ⟨?_, ?_, ?_⟩
  · rintro ⟨-, -, ⟨h1, -, -, h4⟩, -, -⟩
    exact ⟨h1, h4⟩
  · rintro hle ⟨-, -, ⟨h1, -, -, -⟩, -, -⟩
    exact absurd h1 (not_lt.mpr hle)
  · rintro hle ⟨-, -, ⟨-, -, -, h4⟩, -, -⟩
    exact absurd h4 (not_lt.mpr hle)

/-- A concrete sprite scenario: viewport 320x200, texture width 64, camera
at the origin facing +x, sprite 3 units ahead, all depth-buffer entries at
distance 10. -/
def spriteInEx : SpriteIn := ⟨320, 200, 64, 0, 0, 1, 0, 0, 33/50, 3, 0, 64, fun _ => 10⟩

/-- Witness for `spriteEmits_occlusion`: the central column 160 emits a
slice for `spriteInEx` (depth `transformY = 3`, nearer than the wall at
distance 10). -/
theorem spriteEmits_occlusion_witness :
    spriteEmits spriteInEx 160 ∧
      0 < transformY spriteInEx ∧ transformY spriteInEx < spriteInEx.zBuf 160 := by
  have hem : spriteEmits spriteInEx 160 := by
    norm_num [spriteEmits, spriteInEx, acceptCol, drawStartX, drawEndX, drawStartX0,
      drawEndX0, spriteScreenX, spriteWidth, spriteHeight, transformX, transformY,
      invDet, truncQ, vMoveScreen, texX, texStartY, texEndY, drawStartY, drawEndY,
      drawStartY0, drawEndY0, abs_of_nonneg,
      show Int.tdiv (-66) 2 = -33 from by decide,
      show Int.tdiv 66 2 = 33 from by decide,
      show Int.tdiv 200 2 = 100 from by decide,
      show Int.tdiv 540672 66 = 8192 from by decide,
      show Int.tdiv 8192 256 = 32 from by decide,
      show Int.tdiv 0 66 = 0 from by decide,
      show Int.tdiv 0 256 = 0 from by decide,
      show Int.tdiv 1064960 66 = 16135 from by decide,
      show Int.tdiv 16135 256 = 63 from by decide]
  exact ⟨hem, (spriteEmits_occlusion spriteInEx 160).1 hem⟩

theorem renderLoop_eq_or (s : SpriteIn) :
    ∀ (k : ℕ) (st : ℤ) (acc : Bool),
      renderLoop s k st acc =
        (acc || decide (∃ i : ℕ, i < k ∧ acceptCol s (st + i))) := by
  intro k
  induction k with
  | zero => intro st acc; simp [renderLoop]
  | succ n ih =>
    intro st acc
    rw [renderLoop, ih]
    have hiff : (acceptCol s st ∨ ∃ i : ℕ, i < n ∧ acceptCol s (st + 1 + i)) ↔
        (∃ i : ℕ, i < n + 1 ∧ acceptCol s (st + i)) := by
      constructor
      · rintro (h | ⟨i, hi, h⟩)
        · exact ⟨0, by omega, by simpa using h⟩
        · refine ⟨i + 1, by omega, ?_⟩
          have : st + ((i + 1 : ℕ) : ℤ) = st + 1 + i := by push_cast; ring
          rw [this]; exact h
      · rintro ⟨i, hi, h⟩
        cases i with
        | zero => exact Or.inl (by simpa using h)
        | succ j =>
          refine Or.inr ⟨j, by omega, ?_⟩
          have : st + 1 + (j : ℤ) = st + ((j + 1 : ℕ) : ℤ) := by push_cast; ring
          rw [this]; exact h
    rw [Bool.or_assoc, ← Bool.decide_or, decide_eq_decide.mpr hiff]

/-- C5: after `castSprite`, the sprite's Level slot holds a freshly made
Level exactly when some column of the stripe loop passed the acceptance
guard this frame; otherwise `clearSpriteLevel` has set the slot to nil. -/
theorem spriteSlot_iff_accepted (s : SpriteIn) :
    (spriteSlot s).isSome = true ↔
      ∃ stripe : ℤ, drawStartX s ≤ stripe ∧ stripe < drawEndX s ∧
        acceptCol s stripe := by
  have hrender : renderSprite s = true ↔
      ∃ i : ℕ, i < (drawEndX s - drawStartX s).toNat ∧
        acceptCol s (drawStartX s + i) := by
    unfold renderSprite
    rw [renderLoop_eq_or]
    simp
  have hslot : (spriteSlot s).isSome = true ↔ renderSprite s = true := by
    unfold spriteSlot
    split <;> simp_all
  rw [hslot, hrender]
  constructor
  · rintro ⟨i, hi, h⟩
    exact ⟨drawStartX s + i, by omega, by omega, h⟩
  · rintro ⟨stripe, h1, h2, h⟩
    refine ⟨(stripe - drawStartX s).toNat, by omega, ?_⟩
    have heq : (drawStartX s + ((stripe - drawStartX s).toNat : ℤ)) = stripe := by
      omega
    rw [heq]; exact h

/-- Witness for `spriteSlot_iff_accepted`: the example sprite is rendered
(its slot is a fresh Level), via the accepted central column 160. -/
theorem spriteSlot_iff_accepted_witness :
    (spriteSlot spriteInEx).isSome = true := by
  refine (spriteSlot_iff_accepted spriteInEx).mpr ⟨160, ?_, ?_, ?_⟩
  · norm_num [drawStartX, drawStartX0, spriteScreenX, spriteWidth, transformX,
      transformY, invDet, truncQ, spriteInEx, abs_of_nonneg,
      show Int.tdiv (-66) 2 = -33 from by decide,
      show Int.tdiv 66 2 = 33 from by decide,
      show Int.tdiv 200 2 = 100 from by decide,
      show Int.tdiv 540672 66 = 8192 from by decide,
      show Int.tdiv 8192 256 = 32 from by decide,
      show Int.tdiv 0 66 = 0 from by decide,
      show Int.tdiv 0 256 = 0 from by decide,
      show Int.tdiv 1064960 66 = 16135 from by decide,
      show Int.tdiv 16135 256 = 63 from by decide]
  · norm_num [drawEndX, drawEndX0, spriteScreenX, spriteWidth, transformX,
      transformY, invDet, truncQ, spriteInEx, abs_of_nonneg,
      show Int.tdiv (-66) 2 = -33 from by decide,
      show Int.tdiv 66 2 = 33 from by decide,
      show Int.tdiv 200 2 = 100 from by decide,
      show Int.tdiv 540672 66 = 8192 from by decide,
      show Int.tdiv 8192 256 = 32 from by decide,
      show Int.tdiv 0 66 = 0 from by decide,
      show Int.tdiv 0 256 = 0 from by decide,
      show Int.tdiv 1064960 66 = 16135 from by decide,
      show Int.tdiv 16135 256 = 63 from by decide]
  · norm_num [acceptCol, transformY, invDet, spriteInEx]

/-! ## The sprite sorter (`combSort`, Camera.go lines 648-672)

`combSort(order, dist, amount)` sorts two parallel arrays in place,
always swapping `order[i]/order[j]` together with `dist[i]/dist[j]`; the
embedding zips them into one list of (order, distance) pairs, compared by
the distance component. -/

/-- The parallel swap `dist[i], dist[j] = dist[j], dist[i]` /
`order[i], order[j] = order[j], order[i]` on the zipped list. -/
def swapIdx (l : List (ℤ × ℚ)) (i j : ℕ) : List (ℤ × ℚ) :=
  (l.set i (l.getD j (0, 0))).set j (l.getD i (0, 0))

/-- The inner pass `for i := 0; i < amount-gap; i++` of `combSort`,
starting at index `i` with the running `swapped` flag `sw`. -/
def passFrom (n gap : ℕ) (i : ℕ) (l : List (ℤ × ℚ)) (sw : Bool) :
    List (ℤ × ℚ) × Bool :=
  if i < n - gap then
    if (l.getD i (0, 0)).2 < (l.getD (i + gap) (0, 0)).2 then
      passFrom n gap (i + 1) (swapIdx l i (i + gap)) true
    else passFrom n gap (i + 1) l sw
  else (l, sw)
termination_by n - gap - i

/-- The gap update of `combSort`: shrink by 10/13, force 9 and 10 up to
11, floor at 1. -/
def newGap (gap : ℕ) : ℕ :=
  let g := gap * 10 / 13
  let g2 := if g = 9 ∨ g = 10 then 11 else g
  if g2 < 1 then 1 else g2

/-- The outer loop `for gap > 1 || swapped` of `combSort`, with explicit
fuel (`none` = fuel exhausted; `combSort_terminates_sorts` shows some
fuel always suffices). -/
def combLoop (n : ℕ) : ℕ → ℕ → Bool → List (ℤ × ℚ) → Option (List (ℤ × ℚ))
  | 0, _, _, _ => none
  | fuel + 1, gap, sw, l =>
    if gap > 1 ∨ sw = true then
      let g := newGap gap
      let p := passFrom n g 0 l false
      combLoop n fuel g p.2 p.1
    else some l

/-- Number of inversions for the descending target order: pairs whose
left distance is smaller than a distance to its right. -/
def invCount : List (ℤ × ℚ) → ℕ
  | [] => 0
  | a :: t => t.countP (fun b => decide (a.2 < b.2)) + invCount t

theorem length_swapIdx (l : List (ℤ × ℚ)) (i j : ℕ) :
    (swapIdx l i j).length = l.length := by
  simp [swapIdx]

theorem passFrom_length (n gap : ℕ) :
    ∀ (i : ℕ) (l : List (ℤ × ℚ)) (sw : Bool),
      (passFrom n gap i l sw).1.length = l.length := by
  intro i l sw
  induction i, l, sw using passFrom.induct n gap with
  | case1 i l sw hlt hswap ih =>
    rw [passFrom, if_pos hlt, if_pos hswap]
    rw [ih, length_swapIdx]
  | case2 i l sw hlt hswap ih =>
    rw [passFrom, if_pos hlt, if_neg hswap]
    exact ih
  | case3 i l sw hlt =>
    rw [passFrom, if_neg hlt]

theorem getD_cons_perm_set (x : ℤ × ℚ) :
    ∀ (t : List (ℤ × ℚ)) (k : ℕ), k < t.length →
      List.Perm ((t.getD k (0, 0)) :: t.set k x) (x :: t) := by
  intro t
  induction t with
  | nil => intro k hk; simp at hk
  | cons a s ih =>
    intro k hk
    cases k with
    | zero =>
      simp only [List.getD_cons_zero, List.set_cons_zero]
      exact List.Perm.swap x a s
    | succ m =>
      simp only [List.getD_cons_succ, List.set_cons_succ]
      have h1 : List.Perm (s.getD m (0, 0) :: a :: s.set m x) (a :: s.getD m (0, 0) :: s.set m x) :=
        List.Perm.swap _ _ _
      have h2 : List.Perm (a :: s.getD m (0, 0) :: s.set m x) (a :: x :: s) :=
        List.Perm.cons a (ih m (by simpa using hk))
      exact (h1.trans h2).trans (List.Perm.swap x a s)

theorem swapIdx_perm :
    ∀ (l : List (ℤ × ℚ)) (i j : ℕ), i < l.length → j < l.length →
      List.Perm (swapIdx l i j) l := by
  intro l
  induction l with
  | nil => intro i j hi _; simp at hi
  | cons x t ih =>
    intro i j hi hj
    cases i with
    | zero =>
      cases j with
      | zero => simp [swapIdx]
      | succ m =>
        show List.Perm ((t.getD m (0, 0) :: t).set (m + 1) x) (x :: t)
        simp only [List.set_cons_succ]
        exact getD_cons_perm_set x t m (by simpa using hj)
    | succ k =>
      cases j with
      | zero =>
        show List.Perm ((x :: t.set k x).set 0 (t.getD k (0, 0))) (x :: t)
        simp only [List.set_cons_zero]
        exact getD_cons_perm_set x t k (by simpa using hi)
      | succ m =>
        show List.Perm (x :: swapIdx t k m) (x :: t)
        exact List.Perm.cons x (ih k m (by simpa using hi) (by simpa using hj))

theorem passFrom_perm (n gap : ℕ) :
    ∀ (i : ℕ) (l : List (ℤ × ℚ)) (sw : Bool), n ≤ l.length →
      List.Perm (passFrom n gap i l sw).1 l := by
  intro i l sw
  induction i, l, sw using passFrom.induct n gap with
  | case1 i l sw hlt hswap ih =>
    intro hn
    rw [passFrom, if_pos hlt, if_pos hswap]
    have hi : i < l.length := by omega
    have hig : i + gap < l.length := by omega
    have hperm := swapIdx_perm l i (i + gap) hi hig
    have hrec := ih (by rw [length_swapIdx]; exact hn)
    exact hrec.trans hperm
  | case2 i l sw hlt hswap ih =>
    intro hn
    rw [passFrom, if_pos hlt, if_neg hswap]
    exact ih hn
  | case3 i l sw hlt =>
    intro _
    rw [passFrom, if_neg hlt]

/-- The target order of the sort: left pair's distance at least the right
pair's (descending by distance, farthest first). -/
def keyGe (a b : ℤ × ℚ) : Prop := b.2 ≤ a.2

instance : IsTrans (ℤ × ℚ) keyGe := ⟨fun _ _ _ hab hbc => le_trans hbc hab⟩

theorem passFrom_sw_true (n gap : ℕ) :
    ∀ (i : ℕ) (l : List (ℤ × ℚ)) (sw : Bool), sw = true →
      (passFrom n gap i l sw).2 = true := by
  intro i l sw
  induction i, l, sw using passFrom.induct n gap with
  | case1 i l sw hlt hswap ih =>
    intro _
    rw [passFrom, if_pos hlt, if_pos hswap]
    exact ih rfl
  | case2 i l sw hlt hswap ih =>
    intro h
    rw [passFrom, if_pos hlt, if_neg hswap]
    exact ih h
  | case3 i l sw hlt =>
    intro h
    rw [passFrom, if_neg hlt]
    exact h

theorem passFrom_false_eq (n gap : ℕ) :
    ∀ (i : ℕ) (l : List (ℤ × ℚ)) (sw : Bool), sw = false →
      (passFrom n gap i l sw).2 = false →
      (passFrom n gap i l sw).1 = l ∧
      ∀ k, i ≤ k → k < n - gap →
        ¬ (l.getD k (0, 0)).2 < (l.getD (k + gap) (0, 0)).2 := by
  intro i l sw
  induction i, l, sw using passFrom.induct n gap with
  | case1 i l sw hlt hswap ih =>
    intro hsw hres
    exfalso
    rw [passFrom, if_pos hlt, if_pos hswap] at hres
    rw [passFrom_sw_true n gap (i + 1) _ true rfl] at hres
    simp at hres
  | case2 i l sw hlt hswap ih =>
    intro hsw hres
    rw [passFrom, if_pos hlt, if_neg hswap] at hres ⊢
    obtain ⟨h1, h2⟩ := ih hsw hres
    refine ⟨h1, ?_⟩
    intro k hik hk
    rcases Nat.eq_or_lt_of_le hik with rfl | hik'
    · exact hswap
    · exact h2 k hik' hk
  | case3 i l sw hlt =>
    intro hsw _
    rw [passFrom, if_neg hlt]
    exact ⟨rfl, fun k hik hk => absurd (by omega : i < n - gap) hlt⟩

theorem sorted_of_no_adjacent (l : List (ℤ × ℚ))
    (h : ∀ k, k < l.length - 1 →
      ¬ (l.getD k (0, 0)).2 < (l.getD (k + 1) (0, 0)).2) :
    List.Sorted keyGe l := by
  rw [List.Sorted, ← List.chain'_iff_pairwise]
  rw [List.chain'_iff_get]
  intro i hi
  have hk := h i hi
  have hi1 : i < l.length := by omega
  have hi2 : i + 1 < l.length := by omega
  rw [List.getD_eq_getElem l (0, 0) hi1, List.getD_eq_getElem l (0, 0) hi2] at hk
  simp only [List.get_eq_getElem]
  exact not_lt.mp hk

/-- Swapping two *adjacent* entries, written recursively to ease the
inversion-count bookkeeping of the gap-1 (bubble) passes. -/
def swapAdj : List (ℤ × ℚ) → ℕ → List (ℤ × ℚ)
  | a :: b :: t, 0 => b :: a :: t
  | x :: t, i + 1 => x :: swapAdj t i
  | l, _ => l

theorem swapAdj_cons_succ (x : ℤ × ℚ) (t : List (ℤ × ℚ)) (k : ℕ) :
    swapAdj (x :: t) (k + 1) = x :: swapAdj t k := by
  cases t <;> rfl

theorem swapIdx_adjacent :
    ∀ (i : ℕ) (l : List (ℤ × ℚ)), i + 1 < l.length →
      swapIdx l i (i + 1) = swapAdj l i := by
  intro i
  induction i with
  | zero =>
    intro l hl
    rcases l with _ | ⟨a, _ | ⟨b, t⟩⟩
    · simp at hl
    · simp at hl
    · rfl
  | succ k ih =>
    intro l hl
    rcases l with _ | ⟨x, t⟩
    · simp at hl
    · have h1 : swapIdx (x :: t) (k + 1) (k + 2) = x :: swapIdx t k (k + 1) := by
        simp [swapIdx]
      rw [h1, ih t (by simpa using hl), swapAdj_cons_succ]

theorem swapAdj_perm (i : ℕ) (l : List (ℤ × ℚ)) (hl : i + 1 < l.length) :
    List.Perm (swapAdj l i) l := by
  rw [← swapIdx_adjacent i l hl]
  exact swapIdx_perm l i (i + 1) (by omega) hl

theorem invCount_swapAdj :
    ∀ (i : ℕ) (l : List (ℤ × ℚ)), i + 1 < l.length →
      (l.getD i (0, 0)).2 < (l.getD (i + 1) (0, 0)).2 →
      invCount (swapAdj l i) + 1 = invCount l := by
  intro i
  induction i with
  | zero =>
    intro l hl hlt
    rcases l with _ | ⟨a, _ | ⟨b, t⟩⟩
    · simp at hl
    · simp at hl
    · simp only [List.getD_cons_zero, List.getD_cons_succ] at hlt
      show invCount (b :: a :: t) + 1 = invCount (a :: b :: t)
      have h1 : decide (a.2 < b.2) = true := by simpa using hlt
      have h2 : decide (b.2 < a.2) = false := by
        simpa using le_of_lt hlt
      simp [invCount, List.countP_cons, h1, h2]
      omega
  | succ k ih =>
    intro l hl hlt
    rcases l with _ | ⟨x, t⟩
    · simp at hl
    · simp only [List.getD_cons_succ] at hlt
      have hkt : k + 1 < t.length := by simpa using hl
      rw [swapAdj_cons_succ]
      simp only [invCount]
      rw [(swapAdj_perm k t hkt).countP_eq]
      have := ih t hkt hlt
      omega

theorem passFrom1_inv_le (n : ℕ) :
    ∀ (i : ℕ) (l : List (ℤ × ℚ)) (sw : Bool), n ≤ l.length →
      invCount (passFrom n 1 i l sw).1 ≤ invCount l := by
  intro i l sw
  induction i, l, sw using passFrom.induct n 1 with
  | case1 i l sw hlt hswap ih =>
    intro hn
    rw [passFrom, if_pos hlt, if_pos hswap]
    have hb : i + 1 < l.length := by omega
    have heq : swapIdx l i (i + 1) = swapAdj l i := swapIdx_adjacent i l hb
    have hinv : invCount (swapAdj l i) + 1 = invCount l :=
      invCount_swapAdj i l hb hswap
    have hrec := ih (by rw [length_swapIdx]; exact hn)
    rw [← heq] at hinv
    omega
  | case2 i l sw hlt hswap ih =>
    intro hn
    rw [passFrom, if_pos hlt, if_neg hswap]
    exact ih hn
  | case3 i l sw hlt =>
    intro _
    rw [passFrom, if_neg hlt]

theorem passFrom1_inv_lt (n : ℕ) :
    ∀ (i : ℕ) (l : List (ℤ × ℚ)) (sw : Bool), sw = false → n ≤ l.length →
      (passFrom n 1 i l sw).2 = true →
      invCount (passFrom n 1 i l sw).1 < invCount l := by
  intro i l sw
  induction i, l, sw using passFrom.induct n 1 with
  | case1 i l sw hlt hswap ih =>
    intro _ hn _
    rw [passFrom, if_pos hlt, if_pos hswap]
    have hb : i + 1 < l.length := by omega
    have heq : swapIdx l i (i + 1) = swapAdj l i := swapIdx_adjacent i l hb
    have hinv : invCount (swapAdj l i) + 1 = invCount l :=
      invCount_swapAdj i l hb hswap
    have hle := passFrom1_inv_le n (i + 1) (swapIdx l i (i + 1)) true
      (by rw [length_swapIdx]; exact hn)
    rw [← heq] at hinv
    omega
  | case2 i l sw hlt hswap ih =>
    intro hsw hn hres
    rw [passFrom, if_pos hlt, if_neg hswap] at hres ⊢
    exact ih hsw hn hres
  | case3 i l sw hlt =>
    intro hsw hn hres
    rw [passFrom, if_neg hlt] at hres
    rw [hsw] at hres
    simp at hres

theorem newGap_pos (gap : ℕ) : 1 ≤ newGap gap := by
  unfold newGap
  dsimp only
  split_ifs <;> omega

theorem newGap_lt {gap : ℕ} (h : 2 ≤ gap) : newGap gap < gap := by
  unfold newGap
  dsimp only
  split_ifs <;> omega

theorem newGap_one : newGap 1 = 1 := by decide

/-- The outer loop at gap 1 (the bubble phase): it reaches a pass with no
swap within `invCount` more passes and exits with a sorted permutation. -/
theorem combLoop_gap1 (n : ℕ) :
    ∀ (m : ℕ) (l : List (ℤ × ℚ)) (sw : Bool), invCount l < m → n = l.length →
      (sw = false → List.Sorted keyGe l) →
      ∃ fuel out, combLoop n fuel 1 sw l = some out ∧
        List.Perm out l ∧ List.Sorted keyGe out := by
  intro m
  induction m with
  | zero => intro l sw hm _ _; omega
  | succ m ih =>
    intro l sw hm hn hsorted
    cases sw with
    | false =>
      refine ⟨1, l, ?_, List.Perm.refl l, hsorted rfl⟩
      rw [combLoop]
      simp
    | true =>
      cases hps : (passFrom n 1 0 l false).2 with
      | false =>
        obtain ⟨hfix, hnoswap⟩ := passFrom_false_eq n 1 0 l false rfl hps
        have hsort : List.Sorted keyGe l := by
          apply sorted_of_no_adjacent
          intro k hk
          exact hnoswap k (Nat.zero_le k) (by omega)
        refine ⟨2, l, ?_, List.Perm.refl l, hsort⟩
        rw [combLoop]
        rw [if_pos (Or.inr rfl)]
        dsimp only
        rw [newGap_one, hfix, hps]
        rw [combLoop]
        simp
      | true =>
        have hlt : invCount (passFrom n 1 0 l false).1 < invCount l :=
          passFrom1_inv_lt n 0 l false rfl (by omega) hps
        have hrec := ih (passFrom n 1 0 l false).1 true (by omega)
          (by rw [hn, passFrom_length]) (by intro h; cases h)
        obtain ⟨f, out, heq, hperm, hsort⟩ := hrec
        refine ⟨f + 1, out, ?_,
          hperm.trans (passFrom_perm n 1 0 l false (by omega)), hsort⟩
        rw [combLoop]
        rw [if_pos (Or.inr rfl)]
        dsimp only
        rw [newGap_one, hps] at *
        exact heq

/-- The outer loop from any gap: the gap strictly shrinks to 1, after
which `combLoop_gap1` finishes the job. -/
theorem combLoop_main (n : ℕ) :
    ∀ (b gap : ℕ) (l : List (ℤ × ℚ)) (sw : Bool), gap ≤ b → 1 ≤ gap →
      n = l.length → (gap = 1 → sw = false → List.Sorted keyGe l) →
      ∃ fuel out, combLoop n fuel gap sw l = some out ∧
        List.Perm out l ∧ List.Sorted keyGe out := by
  intro b
  induction b with
  | zero => intro gap l sw hb h1 _ _; omega
  | succ b ih =>
    intro gap l sw hb h1 hn hs
    by_cases hg1 : gap = 1
    · subst hg1
      exact combLoop_gap1 n (invCount l + 1) l sw (by omega) hn (hs rfl)
    · have hg2 : 2 ≤ gap := by omega
      have hglt : newGap gap < gap := newGap_lt hg2
      have hgpos : 1 ≤ newGap gap := newGap_pos gap
      have hlen : (passFrom n (newGap gap) 0 l false).1.length = l.length :=
        passFrom_length n (newGap gap) 0 l false
      have hperm : List.Perm (passFrom n (newGap gap) 0 l false).1 l :=
        passFrom_perm n (newGap gap) 0 l false (by omega)
      have hsnext : newGap gap = 1 → (passFrom n (newGap gap) 0 l false).2 = false →
          List.Sorted keyGe (passFrom n (newGap gap) 0 l false).1 := by
        intro hgg hp2
        rw [hgg] at hp2 ⊢
        obtain ⟨hfix, hnoswap⟩ := passFrom_false_eq n 1 0 l false rfl hp2
        rw [hfix]
        apply sorted_of_no_adjacent
        intro k hk
        exact hnoswap k (Nat.zero_le k) (by omega)
      have hrec := ih (newGap gap) (passFrom n (newGap gap) 0 l false).1
        (passFrom n (newGap gap) 0 l false).2 (by omega) hgpos
        (by rw [hn, passFrom_length]) hsnext
      obtain ⟨f, out, heq, hperm2, hsort⟩ := hrec
      refine ⟨f + 1, out, ?_, hperm2.trans hperm, hsort⟩
      rw [combLoop]
      rw [if_pos (Or.inl (by omega : gap > 1))]
      dsimp only
      exact heq

/-- C4: for parallel order/distance arrays (zipped into a list of pairs)
of any length n, the comb sort of `combSort` terminates (some fuel makes
the fueled loop return), and the result is a permutation of the input
that is sorted by distance in non-increasing order — for all i < j the
distance paired with the i-th order entry is at least the distance paired
with the j-th. -/
theorem combSort_terminates_sorts (l : List (ℤ × ℚ)) :
    ∃ (fuel : ℕ) (out : List (ℤ × ℚ)),
      combLoop l.length fuel l.length false l = some out ∧
      List.Perm out l ∧ List.Sorted keyGe out := by
  rcases Nat.lt_or_ge l.length 2 with hlt | hge
  · have hsort : List.Sorted keyGe l := by
      rcases l with _ | ⟨a, _ | ⟨b, t⟩⟩
      · exact List.sorted_nil
      · exact List.sorted_singleton a
      · simp only [List.length_cons] at hlt
        omega
    refine ⟨1, l, ?_, List.Perm.refl l, hsort⟩
    rw [combLoop]
    rw [if_neg (by simp; omega)]
  · exact combLoop_main l.length l.length l.length l false le_rfl (by omega) rfl
      (fun h1 _ => absurd h1 (by omega))

end Raycaster
